import Mathlib

/-!
Verification of the content-selection and translation-caching pipeline of the
CV-generation repository (`cvserve`): the deterministic bio selector
(`bio.py: select_bio_content_deterministic`), the start-date sort key parser
(`utils.py: parse_start_date` and `MONTH_MAP`), the translation cache policy
(`translate.py: translate_cv`), and the code-fence unwrapping applied to
remote responses.

Python strings are modelled as Lean `String`s, with the handful of Python
string methods the code uses (`strip`, `lower`, `split`, `split(sep)`,
`startswith`, `endswith`, `"\n".join`, `int(...)`) re-implemented over the
underlying character list so that their behaviour is explicit and provable.
The re-implementations cover the ASCII range (plus the German umlauts needed
by the month vocabulary); Python's additional Unicode behaviour (non-ASCII
digits and whitespace, full Unicode case folding) is not modelled.
-/

namespace CVServe

/-- ASCII whitespace, as recognised by Python `str.strip` / `str.split`
(space, tab, newline, carriage return, vertical tab, form feed). -/
def isPySpace (c : Char) : Bool :=
  c = ' ' || c = '\t' || c = '\n' || c = '\r' || c = Char.ofNat 11 || c = Char.ofNat 12

/-- Python `str.lower` on a single character: ASCII letters, plus the German
uppercase umlauts that could occur in month names. -/
def pyLowerChar (c : Char) : Char :=
  if 'A' ≤ c ∧ c ≤ 'Z' then Char.ofNat (c.toNat + 32)
  else if c = 'Ä' then 'ä'
  else if c = 'Ö' then 'ö'
  else if c = 'Ü' then 'ü'
  else c

/-- Python `str.lower`. -/
def pyLower (s : String) : String :=
  String.mk (s.data.map pyLowerChar)

/-- Python `str.strip()`: remove leading and trailing whitespace. -/
def pyStrip (s : String) : String :=
  String.mk (((s.data.dropWhile isPySpace).reverse.dropWhile isPySpace).reverse)

/-- Python `str.split()` (no separator) on a character list: split on runs of
whitespace, discarding empty fragments. -/
def splitWsC : List Char → List (List Char)
  | [] => []
  | c :: cs =>
    if isPySpace c then splitWsC cs
    else
      match splitWsC cs with
      | [] => [[c]]
      | w :: ws =>
        match cs with
        | [] => [[c]]
        | c2 :: _ => if isPySpace c2 then [c] :: w :: ws else (c :: w) :: ws

/-- Python `str.split()` (no separator). -/
def pySplitWs (s : String) : List String :=
  (splitWsC s.data).map String.mk

/-- Numeral value of an ASCII digit. -/
def digitVal (c : Char) : Nat := c.toNat - 48

/-- Digit sequence of a Python integer literal after its first digit:
digits, possibly separated by single underscores (an underscore must be
followed by a digit).  Accumulates the value. -/
def pyIntDigits : List Char → Nat → Option Nat
  | [], acc => some acc
  | c :: cs, acc =>
    if c.isDigit then pyIntDigits cs (acc * 10 + digitVal c)
    else if c = '_' then
      match cs with
      | [] => none
      | c2 :: cs2 =>
        if c2.isDigit then pyIntDigits cs2 (acc * 10 + digitVal c2) else none
    else none

/-- A nonempty digit sequence (first character must be a digit). -/
def pyIntBody : List Char → Option Nat
  | [] => none
  | c :: cs => if c.isDigit then pyIntDigits cs (digitVal c) else none

/-- Python `int(...)` on a whitespace-free token: optional sign, then ASCII
digits possibly separated by single underscores; `none` models `ValueError`.
(The code only applies `int` to fragments produced by `str.split()`, which
carry no whitespace; Python's tolerance of surrounding whitespace and of
non-ASCII decimal digits is not modelled.) -/
def pyInt (s : String) : Option Int :=
  match s.data with
  | '+' :: rest => (pyIntBody rest).map (fun n => (n : Int))
  | '-' :: rest => (pyIntBody rest).map (fun n => -(n : Int))
  | rest => (pyIntBody rest).map (fun n => (n : Int))

/-- Python `s.split("\n")` on a character list.  `""` yields `[""]`, and a
trailing newline yields a trailing empty fragment, exactly as in Python. -/
def pyLinesC : List Char → List (List Char)
  | [] => [[]]
  | c :: cs =>
    if c = '\n' then [] :: pyLinesC cs
    else
      match pyLinesC cs with
      | [] => [[c]]
      | l :: ls => (c :: l) :: ls

/-- Python `"\n".join(...)` on character lists. -/
def pyUnlinesC (ls : List (List Char)) : List Char :=
  (ls.intersperse ['\n']).flatten

/-- Python `s.split("\n")`. -/
def pyLines (s : String) : List String :=
  (pyLinesC s.data).map String.mk

/-- Python `"\n".join(...)`. -/
def pyUnlines (ls : List String) : String :=
  String.mk (pyUnlinesC (ls.map String.data))

/-- Python `s.startswith(pre)`. -/
def pyStartsWith (s pre : String) : Bool :=
  pre.data.isPrefixOf s.data

/-- Python `s.endswith(suf)`. -/
def pyEndsWith (s suf : String) : Bool :=
  suf.data.isSuffixOf s.data

/-- Python `"\n".join(s.split("\n")[1:])` — drop the first line. -/
def dropFirstLine (s : String) : String :=
  pyUnlines ((pyLines s).drop 1)

/-- Python `"\n".join(s.split("\n")[:-1])` — drop the last line. -/
def dropLastLine (s : String) : String :=
  pyUnlines ((pyLines s).dropLast)

/-- The response-unwrapping rule applied by both `translate_cv`
(translate.py lines 58–62) and `select_bio_content` (bio.py lines 81–85) to
the already-`strip()`ed remote response: if the text starts with three
backticks, drop its first line; if the result ends with three backticks,
drop its last line. -/
def stripFences (s : String) : String :=
  let s1 := if pyStartsWith s "```" then dropFirstLine s else s
  if pyEndsWith s1 "```" then dropLastLine s1 else s1

/-- Python `s.split(". ")` on a character list: cut at each left-to-right,
non-overlapping occurrence of the two-character separator `". "`. -/
def splitDotSpaceC : List Char → List (List Char)
  | [] => [[]]
  | '.' :: ' ' :: rest => [] :: splitDotSpaceC rest
  | c :: rest =>
    match splitDotSpaceC rest with
    | [] => [[c]]
    | l :: ls => (c :: l) :: ls

/-- Python `s.split(". ")`. -/
def pySplitDotSpace (s : String) : List String :=
  (splitDotSpaceC s.data).map String.mk

/-! ## Date parsing (`utils.py` lines 87–112) -/

/-- The `MONTH_MAP` dict from utils.py: English month names, then the German month
names whose lowercase spelling differs from the English one. -/
def MONTH_MAP : List (String × Int) :=
  [("january", 1), ("february", 2), ("march", 3), ("april", 4), ("may", 5), ("june", 6),
   ("july", 7), ("august", 8), ("september", 9), ("october", 10), ("november", 11), ("december", 12),
   ("januar", 1), ("februar", 2), ("märz", 3), ("mai", 5), ("juni", 6),
   ("juli", 7), ("oktober", 10), ("dezember", 12)]

/-- Python `MONTH_MAP.get(month_str, 0)`.  The keys of `MONTH_MAP` are distinct, so
first-match lookup agrees with Python dict lookup. -/
def monthOf (monthStr : String) : Int :=
  (MONTH_MAP.lookup monthStr).getD 0

/-- The `parse_start_date` function from utils.py: parse a start date string into a
`(year, month)` sort key; higher = more recent. -/
def parse_start_date (dateStr : String) : Int × Int :=
  match pySplitWs (pyLower (pyStrip dateStr)) with
  | [monthStr, yearStr] =>
    let month := monthOf monthStr
    let year :=
      match pyInt yearStr with
      | some y => y
      | none => 0
    (year, month)
  | [single] =>
    match pyInt single with
    | some y => (y, 0)
    | none => (0, 0)
  | _ => (0, 0)

/-! ## Data model

The profile is a schema-less YAML mapping in the source.  Each dict key the
selector touches is modelled as an `Option` field: `none` means the key is
absent.  `cv["k"]` becomes a monadic bind (raising `KeyError` ↦ `none`
result), `cv.get("k", d)` becomes `getD`. -/

/-- One experience entry (`cv["experience"][i]`).  The Python key `"end"` is
modelled as `endDate` (`end` is reserved in Lean). -/
structure Exp where
  title : Option String
  org : Option String
  start : Option String
  endDate : Option String
  bullets : Option (List String)
  deriving Repr, DecidableEq

/-- The `cv["contact"]` sub-mapping. -/
structure Contact where
  email : Option String
  phone : Option String
  address : Option String
  deriving Repr, DecidableEq

/-- The `cv["skills"]` sub-mapping (only the two keys the selector reads). -/
structure Skills where
  leadership : Option (List String)
  technical : Option (List String)
  deriving Repr, DecidableEq

/-- One education entry. -/
structure Edu where
  degree : Option String
  institution : Option String
  deriving Repr, DecidableEq

/-- One link entry (passed through unchanged by the selector). -/
structure Link where
  label : Option String
  url : Option String
  deriving Repr, DecidableEq

/-- The profile mapping (the keys read by `select_bio_content_deterministic`). -/
structure CV where
  name : Option String
  title : Option String
  photo : Option String
  contact : Option Contact
  experience : Option (List Exp)
  skills : Option Skills
  education : Option (List Edu)
  profile : Option String
  links : Option (List Link)
  deriving Repr, DecidableEq

/-- A current-role summary in the bio (`{"title": ..., "org": ..., "period": ...}`). -/
structure Role where
  title : String
  org : String
  period : String
  deriving Repr, DecidableEq

/-- The fixed-shape condensed bio returned by the selector. -/
structure Bio where
  name : String
  title : String
  photo : String
  email : String
  phone : String
  address : String
  bio_summary : String
  career_highlights : List String
  current_roles : List Role
  education : List String
  skills_summary : String
  links : List Link
  deriving Repr, DecidableEq

/-! ## Deterministic selector (`bio.py` lines 90–144) -/

/-- Lexicographic order on `(year, month)` sort keys — Python tuple `<=`. -/
def keyLe (a b : Int × Int) : Bool :=
  decide (a.1 < b.1 ∨ (a.1 = b.1 ∧ a.2 ≤ b.2))

/-- The sort key: `parse_start_date(e.get("start", ""))`. -/
def expKey (e : Exp) : Int × Int :=
  parse_start_date (e.start.getD "")

/-- The `sorted(..., key=..., reverse=True)` comparison: `a` may precede `b`
iff `key b ≤ key a`.  With a stable sort this is exactly CPython's
`sorted(reverse=True)` (descending, equal keys in original order). -/
def expGe (a b : Exp) : Bool :=
  keyLe (expKey b) (expKey a)

/-- Insert an element into a descending-sorted list, after every element
whose key is ≥ its own (so equal keys keep first-come order). -/
def insertDesc (e : Exp) : List Exp → List Exp
  | [] => [e]
  | x :: xs => if expGe x e then x :: insertDesc e xs else e :: x :: xs

/-- Stable descending insertion sort, processing elements in original
order.  `sortExpDesc_perm`, `sortExpDesc_sorted` and `sortExpDesc_filter`
below prove it is a permutation, descending on keys, and stable — the three
properties that uniquely characterise CPython's
`sorted(key=..., reverse=True)`. -/
def sortExpDesc (l : List Exp) : List Exp :=
  l.foldl (fun acc e => insertDesc e acc) []

/-- Python `sorted(cv.get("experience", []), key=..., reverse=True)`. -/
def sortedExperience (cv : CV) : List Exp :=
  sortExpDesc (cv.experience.getD [])

/-- The inner bullet loop of the highlight collection: append bullets one at
a time, breaking as soon as the accumulator reaches 5. -/
def collectBullets (acc : List String) : List String → List String
  | [] => acc
  | b :: bs =>
    let acc2 := acc ++ [b]
    if 5 ≤ acc2.length then acc2 else collectBullets acc2 bs

/-- The bullets contributed by one entry: `e.get("bullets", [])[:2]`. -/
def entryBullets (e : Exp) : List String :=
  (e.bullets.getD []).take 2

/-- The outer entry loop of the highlight collection (over `entries[:4]`,
taking `e.get("bullets", [])[:2]` per entry, breaking at 5 highlights). -/
def collectHighlights (acc : List String) : List Exp → List String
  | [] => acc
  | e :: es =>
    let acc2 := collectBullets acc (entryBullets e)
    if 5 ≤ acc2.length then acc2 else collectHighlights acc2 es

/-- A list comprehension whose body may raise `KeyError`: evaluate `f` on
each element in order, failing if any element fails. -/
def mapOption {α β : Type} (f : α → Option β) : List α → Option (List β)
  | [] => some []
  | x :: xs => do
    let y ← f x
    let ys ← mapOption f xs
    pure (y :: ys)

/-- Projection of a sorted entry to a current-role summary:
`{"title": e["title"], "org": e.get("org", ""), "period": f"{e['start']} — {e['end']}"}`.
`none` models the `KeyError` on a missing `title`, `start` or `end`. -/
def roleOf (e : Exp) : Option Role := do
  let t ← e.title
  let s ← e.start
  let en ← e.endDate
  pure { title := t, org := e.org.getD "", period := s ++ " — " ++ en }

/-- Projection of an education entry: `f"{e['degree']}, {e['institution']}"`. -/
def eduOf (e : Edu) : Option String := do
  let d ← e.degree
  let i ← e.institution
  pure (d ++ ", " ++ i)

/-- The bio-summary truncation (`bio.py` lines 121–127): strip the profile
text, split on `". "`, keep the first 4 segments, rejoin, and append a
final `"."` unless already present. -/
def summarize (profileText : String) : String :=
  let sentences := pySplitDotSpace (pyStrip profileText)
  let joined := String.intercalate ". " (sentences.take 4)
  if pyEndsWith joined "." then joined else joined ++ "."

/-- The `select_bio_content_deterministic` function from bio.py: deterministic fallback
bio selection.  Returns `none` exactly when the Python function raises
`KeyError` (absent required key). -/
def select_bio_content_deterministic (cv : CV) : Option Bio := do
  let entries := sortedExperience cv
  let current_roles ← mapOption roleOf (entries.take 3)
  let highlights := collectHighlights [] (entries.take 4)
  let skills := cv.skills.getD { leadership := none, technical := none }
  let all_skills := skills.leadership.getD [] ++ skills.technical.getD []
  let skills_summary := String.intercalate ", " (all_skills.take 15)
  let education ← mapOption eduOf (cv.education.getD [])
  let bio_summary := summarize (cv.profile.getD "")
  let name ← cv.name
  let title ← cv.title
  let contact ← cv.contact
  let email ← contact.email
  let phone ← contact.phone
  let address ← contact.address
  pure {
    name := name
    title := title
    photo := cv.photo.getD ""
    email := email
    phone := phone
    address := address
    bio_summary := bio_summary
    career_highlights := highlights
    current_roles := current_roles
    education := education
    skills_summary := skills_summary
    links := cv.links.getD [] }

/-! ## Translation with single-slot cache (`translate.py`)

`translate_cv` is modelled over an arbitrary value type `V` (the YAML values
stored in profiles, bios and the cache file).  The ambient state is the
`ANTHROPIC_API_KEY` environment variable and the single cache file
(`output/.cv_de_cache.yaml`), modelled as `Option V` (`none` = file absent).
The remote service is an oracle `remoteText : V → String` giving the
(already `strip()`ed) response text for a request built from a given value,
and `parseYaml : String → Option V` models `yaml.safe_load` (`none` =
exception).  The `anthropic` package is assumed importable (its
`ImportError` exit is not modelled). -/

/-- Ambient state read by `translate_cv`. -/
structure TransState (V : Type) where
  apiKey : Option String
  cache : Option V
  deriving Repr, DecidableEq

/-- Result of one `translate_cv` call: the returned value together with the
state after the call and whether the remote service was invoked, or a fatal
`sys.exit(1)`, or an uncaught `yaml` parse exception. -/
inductive TransResult (V : Type) where
  | ok (value : V) (st : TransState V) (remoteCalled : Bool)
  | exitFatal (st : TransState V)
  | parseExn (st : TransState V)
  deriving Repr, DecidableEq

/-- The `translate_cv` function from translate.py: return the cached translation when
`retranslate` is false and a cache entry exists; otherwise require the API
key, falling back to the cache (or exiting) without it; otherwise call the
remote service, strip code fences, parse, overwrite the cache slot with the
parsed value, and return it. -/
def translate_cv {V : Type} (remoteText : V → String) (parseYaml : String → Option V)
    (cv : V) (retranslate : Bool) (st : TransState V) : TransResult V :=
  if h : ¬retranslate ∧ st.cache.isSome then
    .ok (st.cache.get h.2) st false
  else
    match st.apiKey with
    | none =>
      match st.cache with
      | some cached => .ok cached st false
      | none => .exitFatal st
    | some key =>
      let translated_yaml := stripFences (remoteText cv)
      match parseYaml translated_yaml with
      | none => .parseExn st
      | some translated_cv =>
        .ok translated_cv { apiKey := some key, cache := some translated_cv } true

/-- The translation step of the `bio` command (bio.py lines 334–336): when
the requested language is `"de"`, the selected bio data is passed to
`translate_cv` with `retranslate=True`; otherwise it is used as-is with no
remote call and no cache access. -/
def bioTranslateStep {V : Type} (remoteText : V → String) (parseYaml : String → Option V)
    (lang : String) (bioData : V) (st : TransState V) : TransResult V :=
  if lang = "de" then translate_cv remoteText parseYaml bioData true st
  else .ok bioData st false

/-! ## Lemmas: line splitting and fence stripping -/

theorem pyLinesC_ne_nil (cs : List Char) : pyLinesC cs ≠ [] := by
  induction cs with
  | nil => simp [pyLinesC]
  | cons c cs ih =>
    simp only [pyLinesC]
    split
    · simp
    · match h : pyLinesC cs with
      | [] => simp
      | l :: ls => simp

theorem pyUnlinesC_pyLinesC (cs : List Char) : pyUnlinesC (pyLinesC cs) = cs := by
  induction cs with
  | nil => simp [pyLinesC, pyUnlinesC]
  | cons c cs ih =>
    simp only [pyLinesC]
    split
    · rename_i hc
      subst hc
      match h : pyLinesC cs with
      | [] => exact absurd h (pyLinesC_ne_nil cs)
      | l :: ls =>
        rw [h] at ih
        simpa [pyUnlinesC, List.intersperse] using ih
    · match h : pyLinesC cs with
      | [] => exact absurd h (pyLinesC_ne_nil cs)
      | l :: ls =>
        rw [h] at ih
        match ls with
        | [] => simpa [pyUnlinesC, List.intersperse] using ih
        | l2 :: ls2 => simpa [pyUnlinesC, List.intersperse] using ih

theorem pyLinesC_no_newline {cs : List Char} (h : '\n' ∉ cs) : pyLinesC cs = [cs] := by
  induction cs with
  | nil => simp [pyLinesC]
  | cons c cs ih =>
    simp only [List.mem_cons, not_or] at h
    have h1 : ¬(c = '\n') := fun hc => h.1 hc.symm
    simp only [pyLinesC, if_neg h1, ih h.2]

theorem pyLinesC_append_left {xs : List Char} (ys : List Char) (h : '\n' ∉ xs) :
    pyLinesC (xs ++ '\n' :: ys) = xs :: pyLinesC ys := by
  induction xs with
  | nil => simp [pyLinesC]
  | cons c cs ih =>
    simp only [List.mem_cons, not_or] at h
    have h1 : ¬(c = '\n') := fun hc => h.1 hc.symm
    rw [List.cons_append]
    simp only [pyLinesC, if_neg h1, ih h.2]

theorem pyLinesC_append_right (xs : List Char) {ys : List Char} (h : '\n' ∉ ys) :
    pyLinesC (xs ++ '\n' :: ys) = pyLinesC xs ++ [ys] := by
  induction xs with
  | nil => simp [pyLinesC, pyLinesC_no_newline h]
  | cons c cs ih =>
    rw [List.cons_append]
    by_cases h1 : c = '\n'
    · subst h1
      simp [pyLinesC, ih]
    · simp only [pyLinesC, if_neg h1, ih]
      match hrec : pyLinesC (cs ++ '\n' :: ys) with
      | [] => exact absurd hrec (pyLinesC_ne_nil _)
      | l :: ls =>
        match hcs : pyLinesC cs with
        | [] => exact absurd hcs (pyLinesC_ne_nil cs)
        | l2 :: ls2 => simp

theorem map_data_map_mk (ls : List (List Char)) :
    List.map String.data (List.map String.mk ls) = ls := by
  induction ls with
  | nil => rfl
  | cons l ls ih => simp [ih]

/-- Evaluating `dropFirstLine` on a string whose first line has no newline. -/
theorem dropFirstLine_append {xs : List Char} (ys : List Char) (h : '\n' ∉ xs) :
    dropFirstLine (String.mk (xs ++ '\n' :: ys)) = String.mk ys := by
  simp only [dropFirstLine, pyLines, pyUnlines]
  rw [pyLinesC_append_left ys h]
  simp only [List.map_cons, List.drop_succ_cons, List.drop_zero, map_data_map_mk,
    pyUnlinesC_pyLinesC]

/-- Evaluating `dropLastLine` on a string whose last line has no newline. -/
theorem dropLastLine_append (xs : List Char) {ys : List Char} (h : '\n' ∉ ys) :
    dropLastLine (String.mk (xs ++ '\n' :: ys)) = String.mk xs := by
  simp only [dropLastLine, pyLines, pyUnlines]
  rw [pyLinesC_append_right xs h]
  rw [List.map_append, List.map_singleton, List.dropLast_concat, map_data_map_mk,
    pyUnlinesC_pyLinesC]

theorem mk_data (s : String) : String.mk s.data = s := rfl

/-- The fence round-trip: wrapping any body in a leading fence line (with an
arbitrary newline-free language tag) and a trailing bare fence line, then
applying the unwrapping rule, recovers the body exactly. -/
theorem stripFences_wrap (tag body : String) (htag : '\n' ∉ tag.data) :
    stripFences ("```" ++ tag ++ "\n" ++ body ++ "\n" ++ "```") = body := by
  have hdata : ("```" ++ tag ++ "\n" ++ body ++ "\n" ++ "```").data =
      ("```".data ++ tag.data) ++ '\n' :: (body.data ++ '\n' :: "```".data) := by
    simp [String.data_append]
  have hw : ("```" ++ tag ++ "\n" ++ body ++ "\n" ++ "```") =
      String.mk (("```".data ++ tag.data) ++ '\n' :: (body.data ++ '\n' :: "```".data)) := by
    rw [← mk_data ("```" ++ tag ++ "\n" ++ body ++ "\n" ++ "```"), hdata]
  have hx : '\n' ∉ "```".data ++ tag.data := by
    intro hmem
    rcases List.mem_append.mp hmem with h1 | h1
    · revert h1
      decide
    · exact htag h1
  have hstart : pyStartsWith ("```" ++ tag ++ "\n" ++ body ++ "\n" ++ "```") "```" = true := by
    rw [pyStartsWith, hdata, List.isPrefixOf_iff_prefix, List.append_assoc]
    exact List.prefix_append "```".data _
  have hfence : '\n' ∉ "```".data := by decide
  have hdrop : dropFirstLine ("```" ++ tag ++ "\n" ++ body ++ "\n" ++ "```") =
      String.mk (body.data ++ '\n' :: "```".data) := by
    rw [hw]
    exact dropFirstLine_append _ hx
  have hend : pyEndsWith (String.mk (body.data ++ '\n' :: "```".data)) "```" = true := by
    rw [pyEndsWith, List.isSuffixOf_iff_suffix]
    have : body.data ++ '\n' :: "```".data = (body.data ++ ['\n']) ++ "```".data := by
      simp
    rw [show (String.mk (body.data ++ '\n' :: "```".data)).data =
        body.data ++ '\n' :: "```".data from rfl, this]
    exact List.suffix_append _ _
  rw [stripFences]
  simp only [hstart, if_true, hdrop, hend]
  rw [dropLastLine_append body.data hfence, mk_data]

/-! ## Lemmas: the experience sort -/

theorem keyLe_iff {a b : Int × Int} :
    keyLe a b = true ↔ (a.1 < b.1 ∨ (a.1 = b.1 ∧ a.2 ≤ b.2)) := by
  simp [keyLe]

theorem keyLe_trans {a b c : Int × Int} (h1 : keyLe a b = true) (h2 : keyLe b c = true) :
    keyLe a c = true := by
  rw [keyLe_iff] at h1 h2 ⊢
  omega

theorem keyLe_total (a b : Int × Int) : (keyLe a b || keyLe b a) = true := by
  rw [Bool.or_eq_true, keyLe_iff, keyLe_iff]
  omega

theorem expGe_trans (a b c : Exp) (h1 : expGe a b = true) (h2 : expGe b c = true) :
    expGe a c = true :=
  keyLe_trans h2 h1

theorem expGe_total (a b : Exp) : (expGe a b || expGe b a) = true := by
  rw [expGe, expGe, Bool.or_comm]
  exact keyLe_total (expKey a) (expKey b)

theorem insertDesc_perm (e : Exp) (l : List Exp) : (insertDesc e l).Perm (e :: l) := by
  induction l with
  | nil => exact List.Perm.refl _
  | cons x xs ih =>
    simp only [insertDesc]
    split
    · exact (ih.cons x).trans (List.Perm.swap e x xs)
    · exact List.Perm.refl _

theorem insertDesc_mem {y e : Exp} {l : List Exp} :
    y ∈ insertDesc e l ↔ y = e ∨ y ∈ l := by
  rw [(insertDesc_perm e l).mem_iff]
  simp

theorem insertDesc_sorted {e : Exp} {l : List Exp}
    (h : l.Pairwise (fun a b => expGe a b = true)) :
    (insertDesc e l).Pairwise (fun a b => expGe a b = true) := by
  induction l with
  | nil => simp [insertDesc]
  | cons x xs ih =>
    rw [List.pairwise_cons] at h
    obtain ⟨hx, hxs⟩ := h
    simp only [insertDesc]
    split
    · rename_i hxe
      rw [List.pairwise_cons]
      refine ⟨fun y hy => ?_, ih hxs⟩
      rcases insertDesc_mem.mp hy with hye | hyx
      · rw [hye]
        exact hxe
      · exact hx y hyx
    · rename_i hxe
      have hex : expGe e x = true := by
        rcases Bool.or_eq_true_iff.mp (expGe_total x e) with h1 | h1
        · exact absurd h1 hxe
        · exact h1
      rw [List.pairwise_cons]
      refine ⟨fun y hy => ?_, List.pairwise_cons.mpr ⟨hx, hxs⟩⟩
      rcases List.mem_cons.mp hy with hyx | hyxs
      · rw [hyx]
        exact hex
      · exact expGe_trans e x y hex (hx y hyxs)

theorem sortExpDesc_perm_aux (l acc : List Exp) :
    (l.foldl (fun a e => insertDesc e a) acc).Perm (acc ++ l) := by
  induction l generalizing acc with
  | nil => simp
  | cons e es ih =>
    rw [List.foldl_cons]
    refine (ih (insertDesc e acc)).trans ?_
    refine (List.Perm.append_right es (insertDesc_perm e acc)).trans ?_
    exact List.perm_middle.symm

theorem sortExpDesc_perm (l : List Exp) : (sortExpDesc l).Perm l :=
  sortExpDesc_perm_aux l []

theorem sortExpDesc_sorted_aux (l : List Exp) :
    ∀ acc : List Exp, acc.Pairwise (fun a b => expGe a b = true) →
      (l.foldl (fun a e => insertDesc e a) acc).Pairwise (fun a b => expGe a b = true) := by
  induction l with
  | nil => intro acc hacc; simpa using hacc
  | cons e es ih =>
    intro acc hacc
    rw [List.foldl_cons]
    exact ih (insertDesc e acc) (insertDesc_sorted hacc)

theorem sortExpDesc_sorted (l : List Exp) :
    (sortExpDesc l).Pairwise (fun a b => expGe a b = true) :=
  sortExpDesc_sorted_aux l [] (by simp)

theorem expGe_false_lt {x e : Exp} (hxe : expGe x e = false) :
    keyLe (expKey x) (expKey e) = true ∧ expKey x ≠ expKey e := by
  have hex : expGe e x = true := by
    rcases Bool.or_eq_true_iff.mp (expGe_total x e) with h1 | h1
    · exact Bool.noConfusion (h1.symm.trans hxe)
    · exact h1
  rw [expGe] at hex
  refine ⟨hex, fun heq => ?_⟩
  rw [expGe, heq] at hxe
  have hrefl : keyLe (expKey e) (expKey e) = true := by
    rw [keyLe_iff]
    omega
  exact Bool.noConfusion (hrefl.symm.trans hxe)

theorem insertDesc_filter_ne {e : Exp} {l : List Exp} {v : Int × Int}
    (hv : expKey e ≠ v) :
    (insertDesc e l).filter (fun x => expKey x = v) =
      l.filter (fun x => expKey x = v) := by
  induction l with
  | nil => simp [insertDesc, hv]
  | cons x xs ih =>
    simp only [insertDesc]
    split
    · rw [List.filter_cons, List.filter_cons, ih]
    · simp [hv]

theorem insertDesc_filter_eq {e : Exp} {l : List Exp}
    (hsort : l.Pairwise (fun a b => expGe a b = true)) :
    (insertDesc e l).filter (fun x => expKey x = expKey e) =
      l.filter (fun x => expKey x = expKey e) ++ [e] := by
  induction l with
  | nil => simp [insertDesc]
  | cons x xs ih =>
    rw [List.pairwise_cons] at hsort
    obtain ⟨hx, hxs⟩ := hsort
    simp only [insertDesc]
    split
    · rw [List.filter_cons, List.filter_cons, ih hxs]
      split <;> simp
    · rename_i hxe0
      have hxe : expGe x e = false := Bool.eq_false_iff.mpr hxe0
      obtain ⟨hle, hne⟩ := expGe_false_lt hxe
      have hnone : ∀ y ∈ x :: xs, ¬(expKey y = expKey e) := by
        intro y hy heq
        rcases List.mem_cons.mp hy with hyx | hyxs
        · rw [hyx] at heq
          exact hne heq
        · have h1 : keyLe (expKey y) (expKey x) = true := hx y hyxs
          rw [heq] at h1
          rw [expGe] at hxe
          exact Bool.noConfusion (h1.symm.trans hxe)
      have hfil : (x :: xs).filter (fun y => expKey y = expKey e) = [] := by
        rw [List.filter_eq_nil_iff]
        intro y hy
        simp [hnone y hy]
      rw [hfil, List.filter_cons]
      simp [hfil]

theorem sortExpDesc_filter_aux (v : Int × Int) (l : List Exp) :
    ∀ acc : List Exp, acc.Pairwise (fun a b => expGe a b = true) →
      (l.foldl (fun a e => insertDesc e a) acc).filter (fun x => expKey x = v) =
        acc.filter (fun x => expKey x = v) ++ l.filter (fun x => expKey x = v) := by
  induction l with
  | nil => intro acc hacc; simp
  | cons e es ih =>
    intro acc hacc
    rw [List.foldl_cons, ih (insertDesc e acc) (insertDesc_sorted hacc)]
    by_cases hv : expKey e = v
    · subst hv
      rw [insertDesc_filter_eq hacc, List.filter_cons]
      simp
    · rw [insertDesc_filter_ne hv, List.filter_cons]
      simp [hv]

/-- Stability of the experience sort, in filter form: for any fixed sort
key, the subsequence of entries carrying that key is unchanged by the sort
(equal keys keep their original relative order). -/
theorem sortExpDesc_filter (v : Int × Int) (l : List Exp) :
    (sortExpDesc l).filter (fun x => expKey x = v) =
      l.filter (fun x => expKey x = v) := by
  rw [sortExpDesc, sortExpDesc_filter_aux v l [] (by simp)]
  simp

theorem sortedExperience_perm (cv : CV) :
    (sortedExperience cv).Perm (cv.experience.getD []) :=
  sortExpDesc_perm _

theorem sortedExperience_sorted (cv : CV) :
    (sortedExperience cv).Pairwise (fun a b => keyLe (expKey b) (expKey a) = true) :=
  sortExpDesc_sorted _

theorem sortedExperience_mem {cv : CV} {e : Exp} :
    e ∈ sortedExperience cv ↔ e ∈ cv.experience.getD [] :=
  (sortedExperience_perm cv).mem_iff

theorem sortedExperience_stable (cv : CV) (v : Int × Int) :
    (sortedExperience cv).filter (fun e => expKey e = v) =
      (cv.experience.getD []).filter (fun e => expKey e = v) :=
  sortExpDesc_filter v _

/-! ## Lemmas: the two-level bullet-collection loop -/

theorem collectBullets_eq {acc : List String} (bs : List String) (h : acc.length < 5) :
    collectBullets acc bs = acc ++ bs.take (5 - acc.length) := by
  induction bs generalizing acc with
  | nil => simp [collectBullets]
  | cons b bs ih =>
    simp only [collectBullets]
    split
    · rename_i hlen
      simp only [List.length_append, List.length_singleton] at hlen
      have h5 : 5 - acc.length = 1 := by omega
      rw [h5]
      simp
    · rename_i hlen
      simp only [List.length_append, List.length_singleton] at hlen
      have hlt : (acc ++ [b]).length < 5 := by
        simp only [List.length_append, List.length_singleton]
        omega
      rw [ih hlt]
      have h5 : 5 - acc.length = (5 - (acc ++ [b]).length) + 1 := by
        simp only [List.length_append, List.length_singleton]
        omega
      rw [h5, List.take_succ_cons, List.append_assoc, List.singleton_append]

theorem collectHighlights_eq {acc : List String} (es : List Exp) (h : acc.length < 5) :
    collectHighlights acc es = acc ++ (es.flatMap entryBullets).take (5 - acc.length) := by
  induction es generalizing acc with
  | nil => simp [collectHighlights]
  | cons e es ih =>
    simp only [collectHighlights, collectBullets_eq (entryBullets e) h, List.flatMap_cons]
    split
    · rename_i hlen
      simp only [List.length_append, List.length_take] at hlen
      have hble : 5 - acc.length ≤ (entryBullets e).length := by omega
      rw [List.take_append_of_le_length hble]
    · rename_i hlen
      simp only [List.length_append, List.length_take] at hlen
      have hblt : (entryBullets e).length < 5 - acc.length := by omega
      have htb : List.take (5 - acc.length) (entryBullets e) = entryBullets e :=
        List.take_of_length_le (le_of_lt hblt)
      rw [htb]
      have hlt : (acc ++ entryBullets e).length < 5 := by
        simp only [List.length_append]
        omega
      rw [ih hlt, List.take_append_eq_append_take, htb, List.append_assoc]
      have h5 : 5 - (acc ++ entryBullets e).length = 5 - acc.length - (entryBullets e).length := by
        simp only [List.length_append]
        omega
      rw [h5]

/-- Closed form of the highlight loop: flatten the first-2-bullets of the
entries in order and truncate to 5. -/
theorem collectHighlights_closed (es : List Exp) :
    collectHighlights [] es = (es.flatMap entryBullets).take 5 := by
  simpa using collectHighlights_eq es (by simp)

/-! ## Lemmas: inversion of the selector -/

theorem mapOption_isSome_of_forall {α β : Type} (f : α → Option β) (l : List α)
    (h : ∀ x ∈ l, (f x).isSome) : (mapOption f l).isSome := by
  induction l with
  | nil => simp [mapOption]
  | cons a l ih =>
    obtain ⟨b, hb⟩ := Option.isSome_iff_exists.mp (h a (by simp))
    obtain ⟨bs, hbs⟩ := Option.isSome_iff_exists.mp (ih (fun x hx => h x (by simp [hx])))
    simp [mapOption, hb, hbs]

/-- The skills summary string computed by the selector. -/
def skillsSummaryOf (cv : CV) : String :=
  let skills := cv.skills.getD { leadership := none, technical := none }
  String.intercalate ", " ((skills.leadership.getD [] ++ skills.technical.getD []).take 15)

/-- Inversion of `select_bio_content_deterministic`: a successful run
determines every field of the bio. -/
theorem select_inv {cv : CV} {bio : Bio} (h : select_bio_content_deterministic cv = some bio) :
    mapOption roleOf ((sortedExperience cv).take 3) = some bio.current_roles ∧
    mapOption eduOf (cv.education.getD []) = some bio.education ∧
    bio.career_highlights = collectHighlights [] ((sortedExperience cv).take 4) ∧
    bio.bio_summary = summarize (cv.profile.getD "") ∧
    bio.skills_summary = skillsSummaryOf cv ∧
    bio.photo = cv.photo.getD "" ∧
    bio.links = cv.links.getD [] ∧
    cv.name = some bio.name ∧
    cv.title = some bio.title ∧
    ∃ c, cv.contact = some c ∧ c.email = some bio.email ∧ c.phone = some bio.phone ∧
      c.address = some bio.address := by
  simp only [select_bio_content_deterministic, Option.bind_eq_bind, Option.bind_eq_some,
    Option.pure_def, Option.some.injEq] at h
  obtain ⟨roles, hroles, edu, hedu, name, hname, title, htitle, c, hc, email, hemail,
    phone, hphone, address, haddress, hbio⟩ := h
  subst hbio
  exact ⟨hroles, hedu, rfl, rfl, rfl, rfl, rfl, hname, htitle, c, hc, hemail, hphone, haddress⟩

/-! ## Lemmas: translation cache policy -/

/-- With `retranslate=False` and a cache entry present, `translate_cv`
returns the cached value, leaves the state unchanged, and does not call the
remote service — for any input value. -/
theorem translate_cv_cache_hit {V : Type} (remoteText : V → String)
    (parseYaml : String → Option V) (cv : V) (st : TransState V) (c : V)
    (h : st.cache = some c) :
    translate_cv remoteText parseYaml cv false st = .ok c st false := by
  simp [translate_cv, h]

/-- With `retranslate=True` and a credential configured, `translate_cv`
never consults the cache: it calls the remote service, and the outcome is
fully determined by the parsed, fence-stripped response — on success the
cache slot is overwritten wholesale with the new translation. -/
theorem translate_cv_forced {V : Type} (remoteText : V → String)
    (parseYaml : String → Option V) (cv : V) (key : String) (oldCache : Option V) :
    translate_cv remoteText parseYaml cv true { apiKey := some key, cache := oldCache } =
      match parseYaml (stripFences (remoteText cv)) with
      | some t => .ok t { apiKey := some key, cache := some t } true
      | none => .parseExn { apiKey := some key, cache := oldCache } := by
  rw [translate_cv, dif_neg (by simp)]
  cases hp : parseYaml (stripFences (remoteText cv)) <;> simp [hp]

theorem lookup_range_aux (l : List (String × Int))
    (hl : ∀ p ∈ l, 1 ≤ p.2 ∧ p.2 ≤ 12) (a : String) (v : Int)
    (h : l.lookup a = some v) : 1 ≤ v ∧ v ≤ 12 := by
  induction l with
  | nil => simp [List.lookup] at h
  | cons p l ih =>
    rcases p with ⟨k, b⟩
    rw [List.lookup_cons] at h
    rcases hab : (a == k) with _ | _
    · rw [hab] at h
      exact ih (fun q hq => hl q (by simp [hq])) h
    · rw [hab] at h
      simp only [Option.some.injEq] at h
      subst h
      exact hl (k, b) (by simp)

/-- Sufficient presence conditions under which the deterministic selector
succeeds: name, title and full contact info present, every experience entry
carrying `title`, `start` and `end`, and every education entry carrying
`degree` and `institution`. -/
theorem select_isSome (cv : CV)
    (hname : cv.name.isSome) (htitle : cv.title.isSome)
    (hcontact : ∃ c, cv.contact = some c ∧ c.email.isSome ∧ c.phone.isSome ∧ c.address.isSome)
    (hexp : ∀ e ∈ cv.experience.getD [], e.title.isSome ∧ e.start.isSome ∧ e.endDate.isSome)
    (hedu : ∀ ed ∈ cv.education.getD [], ed.degree.isSome ∧ ed.institution.isSome) :
    (select_bio_content_deterministic cv).isSome := by
  obtain ⟨nm, hnm⟩ := Option.isSome_iff_exists.mp hname
  obtain ⟨tl, htl⟩ := Option.isSome_iff_exists.mp htitle
  obtain ⟨c, hc, hce, hcp, hca⟩ := hcontact
  obtain ⟨em, hem⟩ := Option.isSome_iff_exists.mp hce
  obtain ⟨ph, hph⟩ := Option.isSome_iff_exists.mp hcp
  obtain ⟨ad, had⟩ := Option.isSome_iff_exists.mp hca
  have hroles : (mapOption roleOf ((sortedExperience cv).take 3)).isSome := by
    apply mapOption_isSome_of_forall
    intro e he
    have he2 : e ∈ cv.experience.getD [] :=
      sortedExperience_mem.mp (List.mem_of_mem_take he)
    obtain ⟨ht, hs, hen⟩ := hexp e he2
    obtain ⟨t, ht2⟩ := Option.isSome_iff_exists.mp ht
    obtain ⟨s, hs2⟩ := Option.isSome_iff_exists.mp hs
    obtain ⟨en, hen2⟩ := Option.isSome_iff_exists.mp hen
    simp [roleOf, ht2, hs2, hen2]
  have heduS : (mapOption eduOf (cv.education.getD [])).isSome := by
    apply mapOption_isSome_of_forall
    intro ed hed
    obtain ⟨hd, hi⟩ := hedu ed hed
    obtain ⟨d, hd2⟩ := Option.isSome_iff_exists.mp hd
    obtain ⟨i, hi2⟩ := Option.isSome_iff_exists.mp hi
    simp [eduOf, hd2, hi2]
  obtain ⟨roles, hroles2⟩ := Option.isSome_iff_exists.mp hroles
  obtain ⟨edu, hedu2⟩ := Option.isSome_iff_exists.mp heduS
  simp [select_bio_content_deterministic, hroles2, hedu2, hnm, htl, hc, hem, hph, had]

/-- Any value of `MONTH_MAP` looked up successfully lies in 1–12. -/
theorem lookup_month_range {a : String} {v : Int} (h : MONTH_MAP.lookup a = some v) :
    1 ≤ v ∧ v ≤ 12 :=
  lookup_range_aux MONTH_MAP (by decide) a v h

/-! ## Concrete profiles used by witnesses and counterexamples -/

/-- A fully-populated contact block. -/
def contactW : Contact := { email := some "e@x", phone := some "1", address := some "A" }

/-- An experience entry with title, start, fixed end, and given bullets. -/
def mkExpB (t s : String) (bs : List String) : Exp :=
  { title := some t, org := none, start := some s, endDate := some "now",
    bullets := some bs }

/-- A profile with 10 experience entries (already in descending start order),
each carrying 5 bullets. -/
def cvTen : CV :=
  { name := some "N", title := some "T", photo := none, contact := some contactW,
    experience := some [
      mkExpB "T1" "2029" ["b1-1", "b1-2", "b1-3", "b1-4", "b1-5"],
      mkExpB "T2" "2028" ["b2-1", "b2-2", "b2-3", "b2-4", "b2-5"],
      mkExpB "T3" "2027" ["b3-1", "b3-2", "b3-3", "b3-4", "b3-5"],
      mkExpB "T4" "2026" ["b4-1", "b4-2", "b4-3", "b4-4", "b4-5"],
      mkExpB "T5" "2025" ["b5-1", "b5-2", "b5-3", "b5-4", "b5-5"],
      mkExpB "T6" "2024" ["b6-1", "b6-2", "b6-3", "b6-4", "b6-5"],
      mkExpB "T7" "2023" ["b7-1", "b7-2", "b7-3", "b7-4", "b7-5"],
      mkExpB "T8" "2022" ["b8-1", "b8-2", "b8-3", "b8-4", "b8-5"],
      mkExpB "T9" "2021" ["b9-1", "b9-2", "b9-3", "b9-4", "b9-5"],
      mkExpB "TA" "2020" ["bA-1", "bA-2", "bA-3", "bA-4", "bA-5"]],
    skills := none, education := none, profile := none, links := none }

/-- The bio the selector produces on `cvTen`. -/
def bioTen : Bio :=
  { name := "N", title := "T", photo := "", email := "e@x", phone := "1", address := "A",
    bio_summary := ".",
    career_highlights := ["b1-1", "b1-2", "b2-1", "b2-2", "b3-1"],
    current_roles := [
      { title := "T1", org := "", period := "2029 — now" },
      { title := "T2", org := "", period := "2028 — now" },
      { title := "T3", org := "", period := "2027 — now" }],
    education := [], skills_summary := "", links := [] }

/-! ## Claim C1 -/

/-- C1: for every profile, the deterministic selector's career highlights are
the first-match-order concatenation of the first 2 bullets of each of the
first 4 date-sorted entries, truncated to 5 bullets overall (closed form of
the double-break loop); in particular (see `claim_C1_witness`) 10 entries of
5 bullets each yield exactly the first 2 bullets of the first sorted entry,
the first 2 of the second, and the first 1 of the third. -/
theorem claim_C1 (cv : CV) (bio : Bio)
    (h : select_bio_content_deterministic cv = some bio) :
    bio.career_highlights =
      (((sortedExperience cv).take 4).flatMap entryBullets).take 5 := by
  rw [(select_inv h).2.2.1, collectHighlights_closed]

theorem claim_C1_witness :
    select_bio_content_deterministic cvTen = some bioTen ∧
    bioTen.career_highlights = ["b1-1", "b1-2", "b2-1", "b2-2", "b3-1"] ∧
    bioTen.career_highlights =
      (((sortedExperience cvTen).take 4).flatMap entryBullets).take 5 :=
  ⟨by decide, by decide, claim_C1 cvTen bioTen (by decide)⟩

/-! ## Claim C2 -/

/-- A profile whose identity fields are present but whose contact section —
listed by the claim among the tolerated absences — is missing. -/
def cvNoContact : CV :=
  { name := some "N", title := some "T", photo := none, contact := none,
    experience := none, skills := none, education := none, profile := none,
    links := none }

/-- C2 counterexample: with name and title present but the contact section
absent, the selector raises `KeyError` (here: returns `none`) instead of
succeeding with empty defaults, refuting the claim that any combination of
absent optional sections is tolerated. -/
theorem claim_C2_counterexample :
    cvNoContact.name.isSome ∧ cvNoContact.title.isSome ∧
    select_bio_content_deterministic cvNoContact = none := by
  refine ⟨by decide, by decide, by decide⟩

/-- A profile with nothing beyond name, title and contact. -/
def cvMinimal : CV :=
  { name := some "N", title := some "T", photo := none, contact := some contactW,
    experience := none, skills := none, education := none, profile := none,
    links := none }

/-- C2 (amended): the selector succeeds — returning a fully-populated `Bio`
with empty lists/strings for absent sections (the bio summary degenerating
to `"."`) — provided the contact section is present with email, phone and
address, every experience entry carries title, start and end, and every
education entry carries degree and institution; `org` and `bullets` may be
absent, as may the experience, skills, education, links, photo and profile
sections themselves. -/
theorem claim_C2 (cv : CV)
    (hname : cv.name.isSome) (htitle : cv.title.isSome)
    (hcontact : ∃ c, cv.contact = some c ∧ c.email.isSome ∧ c.phone.isSome ∧ c.address.isSome)
    (hexp : ∀ e ∈ cv.experience.getD [], e.title.isSome ∧ e.start.isSome ∧ e.endDate.isSome)
    (hedu : ∀ ed ∈ cv.education.getD [], ed.degree.isSome ∧ ed.institution.isSome) :
    (select_bio_content_deterministic cv).isSome :=
  select_isSome cv hname htitle hcontact hexp hedu

theorem claim_C2_witness :
    (select_bio_content_deterministic cvMinimal).isSome ∧
    select_bio_content_deterministic cvMinimal = some
      { name := "N", title := "T", photo := "", email := "e@x", phone := "1",
        address := "A", bio_summary := ".", career_highlights := [],
        current_roles := [], education := [], skills_summary := "", links := [] } :=
  ⟨claim_C2 cvMinimal (by decide) (by decide)
      ⟨contactW, by decide, by decide, by decide, by decide⟩
      (by simp [cvMinimal]) (by simp [cvMinimal]),
    by decide⟩

/-! ## Claim C3 -/

/-- C3 counterexample: a forced-refresh request (`retranslate=True`) made
with no credential configured and a stale cache entry present returns the
cached entry without calling the remote service — refuting the claim that a
forced refresh always attempts the remote call. -/
theorem claim_C3_counterexample :
    translate_cv (V := Nat) (fun _ => "") (fun _ => none) 0 true
        { apiKey := none, cache := some 7 } =
      .ok 7 { apiKey := none, cache := some 7 } false := by
  decide

/-- C3 (amended): provided a remote-service credential is configured, a
forced-refresh request always calls the remote service and never consults
the cache; on success the single cache slot is overwritten wholesale, so the
cache afterwards equals exactly the new translation regardless of what it
held before (replaced, not merged).  Without a credential the call falls
back to the cache-or-exit policy of C4. -/
theorem claim_C3 {V : Type} (remoteText : V → String) (parseYaml : String → Option V)
    (cv : V) (key : String) (oldCache : Option V) :
    translate_cv remoteText parseYaml cv true { apiKey := some key, cache := oldCache } =
      match parseYaml (stripFences (remoteText cv)) with
      | some t => .ok t { apiKey := some key, cache := some t } true
      | none => .parseExn { apiKey := some key, cache := oldCache } :=
  translate_cv_forced remoteText parseYaml cv key oldCache

theorem claim_C3_witness :
    translate_cv (V := Nat) (fun _ => "5") (fun s => if s = "5" then some 5 else none)
        1 true { apiKey := some "k", cache := some 9 } =
      .ok 5 { apiKey := some "k", cache := some 5 } true := by
  rw [claim_C3 (fun _ => "5") (fun s => if s = "5" then some 5 else none) 1 "k" (some 9)]
  decide

/-! ## Claim C4 -/

/-- C4: with no credential configured, a translation request returns the
cached entry unchanged without calling the remote service when a cache
entry exists, and fails fatally (`sys.exit(1)`) when none does — in either
cache-preferring or forced-refresh mode. -/
theorem claim_C4 {V : Type} (remoteText : V → String) (parseYaml : String → Option V)
    (cv : V) (retranslate : Bool) (st : TransState V) (hkey : st.apiKey = none) :
    (∀ c, st.cache = some c →
      translate_cv remoteText parseYaml cv retranslate st = .ok c st false) ∧
    (st.cache = none →
      translate_cv remoteText parseYaml cv retranslate st = .exitFatal st) := by
  constructor
  · intro c hc
    by_cases hr : retranslate
    · rw [translate_cv, dif_neg (by simp [hr])]
      simp [hkey, hc]
    · have hr2 : retranslate = false := Bool.eq_false_iff.mpr hr
      rw [hr2]
      exact translate_cv_cache_hit remoteText parseYaml cv st c hc
  · intro hc
    rw [translate_cv, dif_neg (by simp [hc])]
    simp [hkey, hc]

theorem claim_C4_witness :
    translate_cv (V := Nat) (fun _ => "t") (fun _ => some 3) 1 true
        { apiKey := none, cache := some 5 } =
      .ok 5 { apiKey := none, cache := some 5 } false ∧
    translate_cv (V := Nat) (fun _ => "t") (fun _ => some 3) 1 true
        { apiKey := none, cache := none } =
      .exitFatal { apiKey := none, cache := none } :=
  ⟨(claim_C4 (fun _ => "t") (fun _ => some 3) 1 true _ rfl).1 5 rfl,
    (claim_C4 (fun _ => "t") (fun _ => some 3) 1 true _ rfl).2 rfl⟩

/-! ## Claim C5 -/

/-- An entry whose start string parses to a negative year. -/
def expNegYear : Exp :=
  { title := some "A", org := none, start := some "-1", endDate := some "x",
    bullets := none }

/-- An entry whose start string cannot be parsed at all. -/
def expNoParse : Exp :=
  { title := some "B", org := none, start := some "zzz", endDate := some "y",
    bullets := none }

/-- A profile containing a negative-year entry before an unparseable one. -/
def cvC5 : CV :=
  { name := some "N", title := some "T", photo := none, contact := some contactW,
    experience := some [expNegYear, expNoParse], skills := none, education := none,
    profile := none, links := none }

/-- C5 counterexample: an entry whose start cannot be parsed receives key
`(0, 0)` — which is not minimal, because `int("-1")` parses to the negative
year −1 giving key `(-1, 0)` — so in `cvC5` the unparseable entry `"B"`
sorts as the *most recent* role, ahead of the parseable entry `"A"`,
refuting "entries whose start period cannot be parsed sort as the oldest". -/
theorem claim_C5_counterexample :
    (select_bio_content_deterministic cvC5).map Bio.current_roles =
      some [{ title := "B", org := "", period := "zzz — y" },
            { title := "A", org := "", period := "-1 — x" }] ∧
    parse_start_date "zzz" = (0, 0) ∧
    parse_start_date "-1" = (-1, 0) ∧
    keyLe (parse_start_date "-1") (parse_start_date "zzz") = true ∧
    parse_start_date "-1" ≠ parse_start_date "zzz" := by
  refine ⟨by decide, by decide, by decide, by decide, by decide⟩

/-- C5 (amended): the current roles are exactly the first 3 entries of a
stable descending sort by parsed `(year, month)` start key — a permutation
of the experience list, pairwise descending on keys, with entries of equal
key in original relative order — each projected by `roleOf` to its title,
its org-or-empty, and the period string `"start — end"`; entries whose
start cannot be parsed receive the key `(0, 0)`, which ranks as oldest only
among entries whose parsed year and month are non-negative (as they are
for every real month vocabulary value). -/
theorem claim_C5 (cv : CV) (bio : Bio)
    (h : select_bio_content_deterministic cv = some bio) :
    ∃ sorted : List Exp,
      sorted.Perm (cv.experience.getD []) ∧
      sorted.Pairwise (fun a b => keyLe (expKey b) (expKey a) = true) ∧
      (∀ v : Int × Int, sorted.filter (fun e => expKey e = v) =
        (cv.experience.getD []).filter (fun e => expKey e = v)) ∧
      mapOption roleOf (sorted.take 3) = some bio.current_roles ∧
      (∀ p : Int × Int, 0 ≤ p.1 → 0 ≤ p.2 → keyLe (0, 0) p = true) :=
  ⟨sortedExperience cv, sortedExperience_perm cv, sortedExperience_sorted cv,
    fun v => sortedExperience_stable cv v, (select_inv h).1,
    fun p hp1 hp2 => by rw [keyLe_iff]; omega⟩

/-- The bio the selector produces on `cvC5`. -/
def bioC5 : Bio :=
  { name := "N", title := "T", photo := "", email := "e@x", phone := "1",
    address := "A", bio_summary := ".", career_highlights := [],
    current_roles := [{ title := "B", org := "", period := "zzz — y" },
                      { title := "A", org := "", period := "-1 — x" }],
    education := [], skills_summary := "", links := [] }

theorem claim_C5_witness :
    ∃ sorted : List Exp,
      sorted.Perm (cvC5.experience.getD []) ∧
      sorted.Pairwise (fun a b => keyLe (expKey b) (expKey a) = true) ∧
      (∀ v : Int × Int, sorted.filter (fun e => expKey e = v) =
        (cvC5.experience.getD []).filter (fun e => expKey e = v)) ∧
      mapOption roleOf (sorted.take 3) = some bioC5.current_roles ∧
      (∀ p : Int × Int, 0 ≤ p.1 → 0 ≤ p.2 → keyLe (0, 0) p = true) :=
  claim_C5 cvC5 bioC5 (by decide)

/-! ## Claim C6 -/

/-- C6 counterexample: `"March abc"` — a two-token input whose first token
is a recognised month but whose second is not a valid integer — is neither
`"<MonthName> <Year>"` nor a bare `"<Year>"`, so the claim's catch-all
demands `(0, 0)`; the code instead keeps the recognised month and yields
`(0, 3)`. -/
theorem claim_C6_counterexample :
    parse_start_date "March abc" = (0, 3) ∧ ((0, 3) : Int × Int) ≠ (0, 0) := by
  refine ⟨by decide, by decide⟩

/-- C6 (amended): `parse_start_date` is total by construction and, splitting
the stripped lowercased input on whitespace: a two-token input yields
`(int(year)-or-0, vocabulary-month-or-0)` — with the month in 1–12 exactly
when the first token is in the bilingual vocabulary — a one-token input
yields `(int(token)-or-0, 0)`, and any other token count yields `(0, 0)`;
so unparseable input degrades to `(0, 0)` except that a recognised month
with an unparseable year keeps the month: `(0, month)`.  The four concrete
examples of the claim hold as stated. -/
theorem claim_C6 :
    (∀ s a b, pySplitWs (pyLower (pyStrip s)) = [a, b] →
      parse_start_date s = ((pyInt b).getD 0, monthOf a) ∧
      ((MONTH_MAP.lookup a).isSome → 1 ≤ monthOf a ∧ monthOf a ≤ 12) ∧
      (MONTH_MAP.lookup a = none → monthOf a = 0)) ∧
    (∀ s a, pySplitWs (pyLower (pyStrip s)) = [a] →
      parse_start_date s = ((pyInt a).getD 0, 0)) ∧
    (∀ s, (pySplitWs (pyLower (pyStrip s))).length ≠ 1 →
      (pySplitWs (pyLower (pyStrip s))).length ≠ 2 →
      parse_start_date s = (0, 0)) ∧
    parse_start_date "March 2021" = (2021, 3) ∧
    parse_start_date "2019" = (2019, 0) ∧
    parse_start_date "gibberish" = (0, 0) ∧
    parse_start_date "März 2021" = (2021, 3) := by
  refine ⟨?_, ?_, ?_, by decide, by decide, by decide, by decide⟩
  · intro s a b h
    refine ⟨?_, ?_, ?_⟩
    · cases hy : pyInt b <;> simp [parse_start_date, h, hy]
    · intro hsome
      obtain ⟨v, hv⟩ := Option.isSome_iff_exists.mp hsome
      rw [monthOf, hv, Option.getD_some]
      exact lookup_month_range hv
    · intro hnone
      rw [monthOf, hnone, Option.getD_none]
  · intro s a h
    cases hy : pyInt a <;> simp [parse_start_date, h, hy]
  · intro s h1 h2
    rcases hts : pySplitWs (pyLower (pyStrip s)) with _ | ⟨a, _ | ⟨b, _ | ⟨c, rest⟩⟩⟩
    · simp [parse_start_date, hts]
    · exact absurd (by rw [hts]; rfl) h1
    · exact absurd (by rw [hts]; rfl) h2
    · simp [parse_start_date, hts]

theorem claim_C6_witness :
    parse_start_date "March 2021" = ((pyInt "2021").getD 0, monthOf "march") ∧
    ((MONTH_MAP.lookup "march").isSome → 1 ≤ monthOf "march" ∧ monthOf "march" ≤ 12) ∧
    (MONTH_MAP.lookup "march" = none → monthOf "march" = 0) :=
  claim_C6.1 "March 2021" "march" "2021" (by decide)

/-! ## Claim C7 -/

/-- C7: wrapping any structured-text body in a leading triple-backtick
fence line (with or without a newline-free language tag) and a trailing
triple-backtick fence line and applying the unwrapping rule recovers the
body exactly, so every parse of the unwrapped text agrees with the parse
of the unwrapped body. -/
theorem claim_C7 (tag body : String) (htag : '\n' ∉ tag.data) :
    stripFences ("```" ++ tag ++ "\n" ++ body ++ "\n" ++ "```") = body ∧
    ∀ (V : Type) (parseYaml : String → Option V),
      parseYaml (stripFences ("```" ++ tag ++ "\n" ++ body ++ "\n" ++ "```")) =
        parseYaml body := by
  have h := stripFences_wrap tag body htag
  exact ⟨h, fun V parseYaml => by rw [h]⟩

theorem claim_C7_witness :
    stripFences ("```" ++ "yaml" ++ "\n" ++ "a: 1\nb: 2" ++ "\n" ++ "```") = "a: 1\nb: 2" ∧
    stripFences ("```" ++ "" ++ "\n" ++ "x" ++ "\n" ++ "```") = "x" :=
  ⟨(claim_C7 "yaml" "a: 1\nb: 2" (by decide)).1, (claim_C7 "" "x" (by decide)).1⟩

/-! ## Claim C8 -/

/-- The bio-summary rule exactly as the claim words it (no `strip()` of the
profile text): split the summary string on the literal `". "`, keep the
first 4 segments, rejoin with `". "`, and append a trailing period if the
result does not already end with one. -/
def summarizeSpec (s : String) : String :=
  let joined := String.intercalate ". " ((pySplitDotSpace s).take 4)
  if pyEndsWith joined "." then joined else joined ++ "."

/-- A profile whose summary carries trailing whitespace. -/
def cvC8 : CV :=
  { name := some "N", title := some "T", photo := none, contact := some contactW,
    experience := none, skills := none, education := none,
    profile := some "A ", links := none }

/-- C8 counterexample: the code strips the profile text before the sentence
truncation, so the profile `"A "` yields bio summary `"A."`, while the rule
as claimed — applied to the raw summary string — yields `"A ."`. -/
theorem claim_C8_counterexample :
    (select_bio_content_deterministic cvC8).map Bio.bio_summary = some "A." ∧
    summarizeSpec "A " = "A ." ∧ ("A." : String) ≠ "A ." := by
  refine ⟨by decide, by decide, by decide⟩

/-- C8 (amended): the deterministic bio summary equals the claimed rule —
first 4 segments of the split on `". "`, rejoined, trailing period
enforced — applied to the whitespace-stripped profile summary string. -/
theorem claim_C8 (cv : CV) (bio : Bio)
    (h : select_bio_content_deterministic cv = some bio) :
    bio.bio_summary = summarizeSpec (pyStrip (cv.profile.getD "")) := by
  rw [(select_inv h).2.2.2.1]
  rfl

/-- A profile whose summary has four `". "` separators. -/
def cvC8w : CV :=
  { name := some "N", title := some "T", photo := none, contact := some contactW,
    experience := none, skills := none, education := none,
    profile := some "A. B. C. D. E.", links := none }

/-- The bio the selector produces on `cvC8w`. -/
def bioC8w : Bio :=
  { name := "N", title := "T", photo := "", email := "e@x", phone := "1",
    address := "A", bio_summary := "A. B. C. D.", career_highlights := [],
    current_roles := [], education := [], skills_summary := "", links := [] }

theorem claim_C8_witness :
    select_bio_content_deterministic cvC8w = some bioC8w ∧
    bioC8w.bio_summary = "A. B. C. D." ∧
    bioC8w.bio_summary = summarizeSpec (pyStrip (cvC8w.profile.getD "")) ∧
    summarizeSpec "A" = "A." :=
  ⟨by decide, by decide, claim_C8 cvC8w bioC8w (by decide), by decide⟩

/-! ## Claim C9 -/

/-- C9: a cache-preferring request (`retranslate=False`) made while a cache
entry exists returns the cached content without invoking the remote service
and without touching the state, and the outcome is independent of the input
profile — so an edited profile followed by a cache-mode request is served
the stale cached translation unchanged. -/
theorem claim_C9 {V : Type} (remoteText : V → String) (parseYaml : String → Option V)
    (cv : V) (st : TransState V) (c : V) (h : st.cache = some c) :
    translate_cv remoteText parseYaml cv false st = .ok c st false ∧
    ∀ cvEdited : V, translate_cv remoteText parseYaml cvEdited false st =
      translate_cv remoteText parseYaml cv false st := by
  refine ⟨translate_cv_cache_hit remoteText parseYaml cv st c h, fun cvEdited => ?_⟩
  rw [translate_cv_cache_hit remoteText parseYaml cvEdited st c h,
    translate_cv_cache_hit remoteText parseYaml cv st c h]

theorem claim_C9_witness :
    translate_cv (V := Nat) (fun n => toString n) (fun _ => some 0) 1 false
        { apiKey := some "k", cache := some 99 } =
      .ok 99 { apiKey := some "k", cache := some 99 } false ∧
    translate_cv (V := Nat) (fun n => toString n) (fun _ => some 0) 2 false
        { apiKey := some "k", cache := some 99 } =
      .ok 99 { apiKey := some "k", cache := some 99 } false :=
  ⟨(claim_C9 (fun n => toString n) (fun _ => some 0) 1 _ 99 rfl).1,
    (claim_C9 (fun n => toString n) (fun _ => some 0) 2 _ 99 rfl).1⟩

/-! ## Claim C10 -/

/-- C10: a German bio run passes the bio data to `translate_cv` with
`retranslate=True`, so with a credential configured a successful run never
reads the existing cache (the result does not depend on `oldCache`) and
overwrites the single shared cache slot with the translated bio; a
subsequent cache-preferring translation request for any full profile is
then served that bio-shaped cache entry instead of a profile translation. -/
theorem claim_C10 {V : Type} (remoteText : V → String) (parseYaml : String → Option V)
    (bioData : V) (key : String) (oldCache : Option V) (fullProfile : V) (tBio : V)
    (hparse : parseYaml (stripFences (remoteText bioData)) = some tBio) :
    bioTranslateStep remoteText parseYaml "de" bioData
        { apiKey := some key, cache := oldCache } =
      .ok tBio { apiKey := some key, cache := some tBio } true ∧
    translate_cv remoteText parseYaml fullProfile false
        { apiKey := some key, cache := some tBio } =
      .ok tBio { apiKey := some key, cache := some tBio } false := by
  constructor
  · rw [bioTranslateStep, if_pos rfl,
      translate_cv_forced remoteText parseYaml bioData key oldCache, hparse]
  · exact translate_cv_cache_hit remoteText parseYaml fullProfile _ tBio rfl

theorem claim_C10_witness :
    bioTranslateStep (V := Nat) (fun _ => "7") (fun s => if s = "7" then some 7 else none)
        "de" 1 { apiKey := some "k", cache := some 0 } =
      .ok 7 { apiKey := some "k", cache := some 7 } true ∧
    translate_cv (V := Nat) (fun _ => "7") (fun s => if s = "7" then some 7 else none)
        2 false { apiKey := some "k", cache := some 7 } =
      .ok 7 { apiKey := some "k", cache := some 7 } false :=
  claim_C10 (fun _ => "7") (fun s => if s = "7" then some 7 else none) 1 "k" (some 0) 2 7
    (by decide)

end CVServe
